import Mathlib

/-!
Shallow embedding of the discount-management application's in-memory record
store, bulk-operation engine, date utilities, CSV export and mock-data
generator (the `useDiscountData` / `useBulkOperations` composables,
`dateUtils.ts`, `csvExport.ts`, `mockDataGenerator.ts`).

JavaScript strings are modelled as Lean `String`, JS numbers holding integer
values as `Int`/`Nat`, `undefined`-able fields as `Option`, and a thrown
exception as `Except.error`.  `new Date(s)` parsing is modelled for the ISO
`yyyy-mm-dd` format the application uses (every other string is treated as an
invalid date), with calendar arithmetic in a UTC environment; randomness is
abstracted as explicit oracle arguments.
-/

/-! ## Characters and decimal rendering (JS `String(n)`, `padStart`) -/

/-- Is `c` one of the ASCII digits `0`-`9` (the regex class `\d`). -/
def isDigitChar (c : Char) : Bool := '0' ≤ c && c ≤ '9'

/-- Numeric value of a digit character. -/
def digitVal (c : Char) : Nat := c.toNat - '0'.toNat

/-- The digit character for `n < 10`. -/
def digitChar (n : Nat) : Char := Char.ofNat ('0'.toNat + n)

/-- Value of a most-significant-first digit string. -/
def digitsToNat (cs : List Char) : Nat := cs.foldl (fun a c => 10 * a + digitVal c) 0

/-- Decimal rendering with structural fuel (`n < fuel` always holds at the
call sites, so the `fuel = 0` branch is unreachable). -/
def natReprAux : Nat → Nat → List Char
  | 0, _ => []
  | f + 1, n =>
    if n < 10 then [digitChar n]
    else natReprAux f (n / 10) ++ [digitChar (n % 10)]

/-- Decimal digit list of a natural number, most significant first:
the character content of JavaScript `String(n)` for a nonnegative integer. -/
def natReprList (n : Nat) : List Char := natReprAux (n + 1) n

/-- JavaScript `String(n)` for a nonnegative integer. -/
def natRepr (n : Nat) : String := String.mk (natReprList n)

/-- JavaScript `String(i)` for an integer (negative values get a leading minus). -/
def intRepr (i : Int) : String :=
  if i < 0 then "-" ++ natRepr i.natAbs else natRepr i.toNat

/-- JavaScript `s.padStart(n, c)`. -/
def jsPadStart (n : Nat) (c : Char) (s : String) : String :=
  String.mk (List.replicate (n - s.data.length) c ++ s.data)

/-! ## Calendar model (`new Date(yyyy-mm-dd)` in a UTC environment) -/

/-- Proleptic Gregorian leap-year rule. -/
def isLeapYear (y : Nat) : Bool := (y % 4 == 0 && y % 100 != 0) || y % 400 == 0

/-- Number of days in month `m` (1-12) of year `y`; 0 for out-of-range `m`. -/
def daysInMonth (y m : Nat) : Nat :=
  if m = 1 then 31 else if m = 2 then (if isLeapYear y then 29 else 28)
  else if m = 3 then 31 else if m = 4 then 30 else if m = 5 then 31
  else if m = 6 then 30 else if m = 7 then 31 else if m = 8 then 31
  else if m = 9 then 30 else if m = 10 then 31 else if m = 11 then 30
  else if m = 12 then 31 else 0

/-- Days in the months before month `m` of a non-leap year. -/
def daysBeforeMonth (m : Nat) : Nat :=
  if m = 1 then 0 else if m = 2 then 31 else if m = 3 then 59
  else if m = 4 then 90 else if m = 5 then 120 else if m = 6 then 151
  else if m = 7 then 181 else if m = 8 then 212 else if m = 9 then 243
  else if m = 10 then 273 else if m = 11 then 304 else 334

/-- Number of leap years `k` with `0 ≤ k < y`. -/
def leapYearsBefore (y : Nat) : Nat :=
  if y = 0 then 0 else 1 + (y - 1) / 4 - (y - 1) / 100 + (y - 1) / 400

/-- Linear day number of the calendar date `y-m-d`: the model of
`new Date(...).getTime() / 86400000` for ISO date strings, up to the constant
epoch offset (which cancels in every difference and comparison the code makes). -/
def toDayNumber (y m d : Nat) : Nat :=
  365 * y + leapYearsBefore y + daysBeforeMonth m
    + (if 2 < m && isLeapYear y then 1 else 0) + (d - 1)

/-- Parse an ISO `yyyy-mm-dd` string into `(year, month, day)`: the model of
`new Date(dateString)` succeeding with a valid date.  Exactly the strings of
shape `\d{4}-\d{2}-\d{2}` denoting a real calendar date parse; everything else
is an invalid date (`none`). -/
def parseYMD (s : String) : Option (Nat × Nat × Nat) :=
  match s.data with
  | [y1, y2, y3, y4, h1, m1, m2, h2, d1, d2] =>
    if h1 = '-' ∧ h2 = '-' ∧ ([y1, y2, y3, y4, m1, m2, d1, d2]).all isDigitChar = true then
      let y := digitsToNat [y1, y2, y3, y4]
      let m := digitsToNat [m1, m2]
      let d := digitsToNat [d1, d2]
      if 1 ≤ m && m ≤ 12 && 1 ≤ d && d ≤ daysInMonth y m then some (y, m, d) else none
    else none
  | _ => none

/-- The twelve long-form English month names
(`toLocaleDateString('en-US', month long)`). -/
def monthNamesEn : List String :=
  ["January", "February", "March", "April", "May", "June", "July",
   "August", "September", "October", "November", "December"]

/-- Long-form English name of month `m` (1-12). -/
def monthNameEn (m : Nat) : String := monthNamesEn.getD (m - 1) ""

/-- `getMonthName` from `dateUtils.ts`: empty string for a falsy or unparseable
input, otherwise the long-form month name of the parsed date. -/
def getMonthName (dateString : String) : String :=
  match parseYMD dateString with
  | none => ""
  | some (_, m, _) => monthNameEn m

/-- `calculateDaysBetween` from `dateUtils.ts`: 0 if either input is empty or
unparseable, otherwise the day difference (an exact integer for date-only
strings, so the source's `Math.ceil` is the identity) floored at 0. -/
def calculateDaysBetween (startDate endDate : String) : Int :=
  match parseYMD startDate, parseYMD endDate with
  | some (ys, ms, ds), some (ye, me, de) =>
    max 0 ((toDayNumber ye me de : Int) - (toDayNumber ys ms ds : Int))
  | _, _ => 0

/-- `formatDate` from `dateUtils.ts`, applied to a date with components
`y`/`m`/`d`: renders `yyyy-mm-dd` with `String(year)` and 2-wide
zero-padding of month and day. -/
def formatDate (y m d : Nat) : String :=
  natRepr y ++ "-" ++ jsPadStart 2 '0' (natRepr m) ++ "-" ++ jsPadStart 2 '0' (natRepr d)

/-! ## JS string helpers used by filtering -/

/-- `pat.isPrefixOf s`-based substring test on character lists. -/
def listIsInfix (pat : List Char) : List Char → Bool
  | [] => pat.isEmpty
  | c :: t => pat.isPrefixOf (c :: t) || listIsInfix pat t

/-- JavaScript `s.includes(pat)`. -/
def strIncludes (s pat : String) : Bool := listIsInfix pat.data s.data

/-- ASCII fragment of JavaScript `toLowerCase`. -/
def lowerChar (c : Char) : Char :=
  if 'A' ≤ c && c ≤ 'Z' then Char.ofNat (c.toNat + 32) else c

/-- JavaScript `s.toLowerCase()` (ASCII fragment). -/
def lowerStr (s : String) : String := String.mk (s.data.map lowerChar)

/-! ## The data model (`types/discount.ts`) -/

/-- `DiscountRecord` from `types/discount.ts`.  Enumeration-typed fields are
carried as their string values (TS string enums); the optional computed fields
`month`/`length` are `Option`s, `none` standing for `undefined`. -/
structure DiscountRecord where
  clientId : String
  client : String
  platform : String
  region : String
  discount : String
  startDate : String
  startTime : String
  endDate : String
  endTime : String
  percent : Int
  deadline : String
  implementationStatus : String
  salesEventStatus : String
  comments : String
  month : Option String := none
  length : Option Int := none
deriving DecidableEq

/-- `BulkUpdateData` from `types/discount.ts`: the bulk-update patch;
`none` models an absent (`undefined`) field. -/
structure BulkUpdateData where
  discountName : Option String := none
  discountPercent : Option Int := none
  startDate : Option String := none
  endDate : Option String := none
deriving DecidableEq

/-! ## The record store (`useDiscountData.ts`) -/

/-- The reactive state owned by `useDiscountData`. -/
structure StoreState where
  rawData : List DiscountRecord
  isLoading : Bool := false
  filters : List (String × List String) := []
  error : Option String := none
deriving DecidableEq

/-- The `String((record as any)[field] || '')` stringification used by
`filteredData` (and `getUniqueValues`'s non-computed branch): JS falsy field
values (`undefined`, the empty string, the number 0) collapse to `''`. -/
def jsFieldString (r : DiscountRecord) (field : String) : String :=
  if field = "clientId" then r.clientId
  else if field = "client" then r.client
  else if field = "platform" then r.platform
  else if field = "region" then r.region
  else if field = "discount" then r.discount
  else if field = "startDate" then r.startDate
  else if field = "startTime" then r.startTime
  else if field = "endDate" then r.endDate
  else if field = "endTime" then r.endTime
  else if field = "percent" then (if r.percent = 0 then "" else intRepr r.percent)
  else if field = "deadline" then r.deadline
  else if field = "implementationStatus" then r.implementationStatus
  else if field = "salesEventStatus" then r.salesEventStatus
  else if field = "comments" then r.comments
  else if field = "month" then (match r.month with | none => "" | some s => s)
  else if field = "length" then
    (match r.length with | none => "" | some n => if n = 0 then "" else intRepr n)
  else ""

/-- One iteration of `filteredData`'s `forEach` body, for the filter entry
`(field, values)`: skipped unless `values` is non-empty, otherwise keeps the
records whose lowered field string includes some lowered accepted value. -/
def applyFieldFilter (result : List DiscountRecord) (field : String)
    (values : List String) : List DiscountRecord :=
  if 0 < values.length then
    result.filter (fun record =>
      values.any (fun filterValue =>
        strIncludes (lowerStr (jsFieldString record field)) (lowerStr filterValue)))
  else result

/-- `filteredData` from `useDiscountData`: returns `rawData` itself when the
filter map is empty, otherwise folds every filter entry over the collection. -/
def filteredData (filters : List (String × List String))
    (rawData : List DiscountRecord) : List DiscountRecord :=
  if filters.isEmpty then rawData
  else filters.foldl (fun result fv => applyFieldFilter result fv.1 fv.2) rawData

/-- The per-record value `getUniqueValues` computes for `field`: the computed
fields `month`/`length` are recomputed live from the date fields (`length`
stringified with no falsy fallback), every other field goes through the
`String(... || '')` coercion. -/
def uniqueFieldValue (r : DiscountRecord) (field : String) : String :=
  if field = "month" then getMonthName r.startDate
  else if field = "length" then intRepr (calculateDaysBetween r.startDate r.endDate)
  else jsFieldString r field

/-- Insert into a `≤`-sorted list of strings. -/
def insertSorted (x : String) : List String → List String
  | [] => [x]
  | y :: t => if x ≤ y then x :: y :: t else y :: insertSorted x t

/-- Insertion sort, modelling `Array.from(set).sort()`. -/
def sortStrings (l : List String) : List String := l.foldr insertSorted []

/-- `getUniqueValues` from `useDiscountData`: collects each record's value for
`field`, skips falsy values (`if (value)`), deduplicates (the `Set`) and
sorts. -/
def getUniqueValues (rawData : List DiscountRecord) (field : String) : List String :=
  sortStrings (((rawData.map (fun r => uniqueFieldValue r field)).filter
    (fun v => v ≠ "")).dedup)

/-- The `month`/`length` pre-calculation applied by `loadData`, `updateRecord`
and `addRecord` before a record enters `rawData`. -/
def withComputedFields (record : DiscountRecord) : DiscountRecord :=
  { record with
    month := some (getMonthName record.startDate)
    length := some (calculateDaysBetween record.startDate record.endDate) }

/-- `loadData` from `useDiscountData`.  The outcome of the generation step
(which uses an unseeded random source and can in principle throw) is passed in
as `gen`: on success the whole collection is replaced by the generated records
with computed fields attached; on failure the error message is recorded, the
loading flag cleared and `rawData` left untouched. -/
def loadData (st : StoreState) (gen : Except String (List DiscountRecord)) : StoreState :=
  match gen with
  | Except.ok data =>
    { st with rawData := data.map withComputedFields, error := none, isLoading := false }
  | Except.error msg =>
    { st with error := some msg, isLoading := false }

/-- `updateRecord` from `useDiscountData`: find by `clientId`, recompute the
computed fields from the incoming dates, replace in place; silently no-op when
the id is absent. -/
def updateRecord (st : StoreState) (updatedRecord : DiscountRecord) : StoreState :=
  match st.rawData.findIdx? (fun record => record.clientId = updatedRecord.clientId) with
  | some index => { st with rawData := st.rawData.set index (withComputedFields updatedRecord) }
  | none => st

/-- `deleteRecord` from `useDiscountData`: splice out the first record with the
given `clientId`, if any. -/
def deleteRecord (st : StoreState) (clientId : String) : StoreState :=
  match st.rawData.findIdx? (fun record => record.clientId = clientId) with
  | some index => { st with rawData := st.rawData.eraseIdx index }
  | none => st

/-- `deleteRecords` from `useDiscountData`: keep the records whose `clientId`
is not in the deletion set. -/
def deleteRecords (st : StoreState) (clientIds : List String) : StoreState :=
  { st with rawData := st.rawData.filter (fun record => !(clientIds.contains record.clientId)) }

/-- `addRecord` from `useDiscountData`: push with computed fields attached
(no duplicate-id check). -/
def addRecord (st : StoreState) (newRecord : DiscountRecord) : StoreState :=
  { st with rawData := st.rawData ++ [withComputedFields newRecord] }

/-! ## The bulk-operation engine (`useBulkOperations.ts`) -/

/-- The reactive state owned by `useBulkOperations`. -/
structure BulkState where
  isProcessing : Bool := false
  operationProgress : Nat := 0
  lastOperationResult : Option String := none
deriving DecidableEq

/-- Result of running one bulk operation: the promise outcome, the final
reactive state, and the sequence of callback invocations it made. -/
structure BulkOutcome (α : Type) where
  outcome : Except String Unit
  state : BulkState
  calls : List α

/-- The merged record `bulkUpdate` builds: each patch field is applied only if
present — `discountName`/`startDate`/`endDate` only when truthy (non-empty),
`discountPercent` whenever it is not `undefined`. -/
def applyBulkUpdate (updateData : BulkUpdateData) (record : DiscountRecord) : DiscountRecord :=
  let r1 := match updateData.discountName with
    | some s => if s ≠ "" then { record with discount := s } else record
    | none => record
  let r2 := match updateData.discountPercent with
    | some p => { r1 with percent := p }
    | none => r1
  let r3 := match updateData.startDate with
    | some s => if s ≠ "" then { r2 with startDate := s } else r2
    | none => r2
  match updateData.endDate with
  | some s => if s ≠ "" then { r3 with endDate := s } else r3
  | none => r3

/-- `bulkUpdate` from `useBulkOperations`: rejects on an empty selection before
touching any state; otherwise builds and emits one merged record per selected
record via `onUpdate` (recorded in `calls`), and ends — via the `finally`
block — with `isProcessing` false, `operationProgress` reset to 0, and a
success message holding the processed count. -/
def bulkUpdate (records : List DiscountRecord) (updateData : BulkUpdateData)
    (st : BulkState) : BulkOutcome DiscountRecord :=
  if records.length = 0 then
    { outcome := Except.error ("No records selected for bulk update"), state := st, calls := [] }
  else
    { outcome := Except.ok ()
      state := { isProcessing := false, operationProgress := 0
                 lastOperationResult :=
                   some ("Successfully updated " ++ natRepr records.length ++ " records") }
      calls := records.map (applyBulkUpdate updateData) }

/-- `bulkDelete` from `useBulkOperations`: rejects on an empty selection before
touching any state; otherwise invokes `onDelete` exactly once with the selected
records' `clientId`s (after purely cosmetic progress ticks), ending with the
state reset by the `finally` block and a success message. -/
def bulkDelete (records : List DiscountRecord) (st : BulkState) : BulkOutcome (List String) :=
  if records.length = 0 then
    { outcome := Except.error ("No records selected for deletion"), state := st, calls := [] }
  else
    { outcome := Except.ok ()
      state := { isProcessing := false, operationProgress := 0
                 lastOperationResult :=
                   some ("Successfully deleted " ++ natRepr records.length ++ " records") }
      calls := [records.map (fun record => record.clientId)] }

/-- `generateFilename` from `csvExport.ts`, with the current instant passed in
as an ISO string: truncate to seconds, replace colons by hyphens. -/
def generateFilename (prefixStr : String) (nowISO : String) : String :=
  prefixStr ++ "-" ++
    String.mk ((nowISO.data.take 19).map (fun c => if c = ':' then '-' else c)) ++ ".csv"

/-- `exportToCSV` from `useBulkOperations`: rejects on an empty selection
before touching any state; otherwise calls `downloadCSV` exactly once
(recorded in `calls` with the effective filename, defaulted through
`generateFilename` when the supplied one is absent or empty). -/
def exportToCSV (records : List DiscountRecord) (filename : Option String)
    (nowISO : String) (st : BulkState) : BulkOutcome (List DiscountRecord × String) :=
  if records.length = 0 then
    { outcome := Except.error ("No records to export"), state := st, calls := [] }
  else
    let exportFilename := match filename with
      | some f => if f ≠ "" then f else generateFilename ("filtered-discounts") nowISO
      | none => generateFilename ("filtered-discounts") nowISO
    { outcome := Except.ok ()
      state := { isProcessing := false, operationProgress := 0
                 lastOperationResult :=
                   some ("Successfully exported " ++ natRepr records.length ++
                     " records to " ++ exportFilename) }
      calls := [(records, exportFilename)] }

/-- Does `s` match the regex `^\d{4}-\d{2}-\d{2}$` from
`validateBulkUpdateData`. -/
def matchesDatePattern (s : String) : Bool :=
  match s.data with
  | [y1, y2, y3, y4, '-', m1, m2, '-', d1, d2] =>
    ([y1, y2, y3, y4, m1, m2, d1, d2]).all isDigitChar
  | _ => false

/-- The errors pushed by `validateBulkUpdateData`'s percent check:
`discountPercent !== undefined` and out of `[0, 100]`. -/
def percentErrors (updateData : BulkUpdateData) : List String :=
  match updateData.discountPercent with
  | some p => if p < 0 || 100 < p then [("Discount percent must be between 0 and 100")] else []
  | none => []

/-- The errors pushed by `validateBulkUpdateData`'s start-date pattern check:
`startDate` truthy and failing the `yyyy-mm-dd` regex. -/
def startDateErrors (updateData : BulkUpdateData) : List String :=
  match updateData.startDate with
  | some s => if s ≠ "" && !matchesDatePattern s then
      [("Start date must be in YYYY-MM-DD format")] else []
  | none => []

/-- The errors pushed by `validateBulkUpdateData`'s end-date pattern check. -/
def endDateErrors (updateData : BulkUpdateData) : List String :=
  match updateData.endDate with
  | some s => if s ≠ "" && !matchesDatePattern s then
      [("End date must be in YYYY-MM-DD format")] else []
  | none => []

/-- The errors pushed by `validateBulkUpdateData`'s date-order check: both
dates truthy, and `new Date(end) <= new Date(start)` — which requires both to
parse to valid dates, since an invalid `Date` compares as `NaN` and never
triggers the check. -/
def dateOrderErrors (updateData : BulkUpdateData) : List String :=
  match updateData.startDate, updateData.endDate with
  | some s, some e =>
    if s ≠ "" && e ≠ "" then
      match parseYMD s, parseYMD e with
      | some (ys, ms, ds), some (ye, me, de) =>
        if toDayNumber ye me de ≤ toDayNumber ys ms ds then
          [("End date must be after start date")] else []
      | _, _ => []
    else []
  | _, _ => []

/-- `validateBulkUpdateData` from `useBulkOperations`: the concatenation of the
four guarded error pushes, in source order. -/
def validateBulkUpdateData (updateData : BulkUpdateData) : List String :=
  percentErrors updateData ++ startDateErrors updateData
    ++ endDateErrors updateData ++ dateOrderErrors updateData

/-! ## The mock-data generator (`mockDataGenerator.ts`) -/

/-- The random draws `generateDiscountRecord` makes for one record, abstracted
as an oracle value (the source uses an unseeded `Math.random`). -/
structure GenChoices where
  client : String
  platform : String
  region : String
  discount : String
  startDate : String
  startTime : String
  endDate : String
  endTime : String
  percent : Int
  deadline : String
  implementationStatus : String
  salesEventStatus : String
  comments : String

/-- `client.replace(/[^A-Z]/g, '')`: keep only the uppercase ASCII letters. -/
def upperOnly (s : String) : String :=
  String.mk (s.data.filter (fun c => 'A' ≤ c && c ≤ 'Z'))

/-- The `clientId` built by `generateDiscountRecord`:
`` `ORG_${slug}_${String(index).padStart(6, '0')}` ``. -/
def mkClientId (client : String) (index : Nat) : String :=
  "ORG_" ++ upperOnly client ++ "_" ++ jsPadStart 6 '0' (natRepr index)

/-- `generateDiscountRecord`, its random draws supplied by `ch`; the
deterministic part is the `clientId` construction from the client name and the
record index. -/
def generateDiscountRecord (index : Nat) (ch : GenChoices) : DiscountRecord :=
  { clientId := mkClientId ch.client index
    client := ch.client
    platform := ch.platform
    region := ch.region
    discount := ch.discount
    startDate := ch.startDate
    startTime := ch.startTime
    endDate := ch.endDate
    endTime := ch.endTime
    percent := ch.percent
    deadline := ch.deadline
    implementationStatus := ch.implementationStatus
    salesEventStatus := ch.salesEventStatus
    comments := ch.comments }

/-- `generateMockData`: one record per index `i` in `[0, count)`. -/
def generateMockData (count : Nat) (oracle : Nat → GenChoices) : List DiscountRecord :=
  (List.range count).map (fun i => generateDiscountRecord i (oracle i))

/-- `generateTestData` simply delegates to `generateMockData`. -/
def generateTestData (count : Nat) (oracle : Nat → GenChoices) : List DiscountRecord :=
  generateMockData count oracle

/-! ## CSV serialization (`csvExport.ts`) -/

/-- `escapeCSVValue`: wrap in double quotes, doubling the internal quotes, iff
the value contains a comma, a double quote or a newline. -/
def escapeCSVValue (value : String) : String :=
  if value.data.contains ',' || value.data.contains '"' || value.data.contains '\n' then
    "\"" ++ String.mk (value.data.flatMap (fun c => if c = '"' then ['"', '"'] else [c])) ++ "\""
  else value

/-- The fixed 16-column header of `convertToCSV`. -/
def csvHeaders : List String :=
  ["Client Id", "Client", "Platform", "Region", "Discount", "Start Date",
   "Start Time", "End Date", "End Time", "Percent", "Deadline",
   "Implementation Status", "Sales Event Status", "Comments", "Month",
   "Length (Days)"]

/-- The 16 already-escaped cells of one CSV row: every string field goes
through `escapeCSVValue`, the numeric `percent` and the recomputed `length`
are rendered as plain decimal text, `month` is recomputed from `startDate`. -/
def recordCSVFields (record : DiscountRecord) : List String :=
  [escapeCSVValue record.clientId,
   escapeCSVValue record.client,
   escapeCSVValue record.platform,
   escapeCSVValue record.region,
   escapeCSVValue record.discount,
   escapeCSVValue record.startDate,
   escapeCSVValue record.startTime,
   escapeCSVValue record.endDate,
   escapeCSVValue record.endTime,
   intRepr record.percent,
   escapeCSVValue record.deadline,
   escapeCSVValue record.implementationStatus,
   escapeCSVValue record.salesEventStatus,
   escapeCSVValue record.comments,
   escapeCSVValue (getMonthName record.startDate),
   intRepr (calculateDaysBetween record.startDate record.endDate)]

/-- `convertToCSV`: empty input yields empty text, otherwise the comma-joined
header line followed by one comma-joined line per record, lines joined by
`\n`. -/
def convertToCSV (records : List DiscountRecord) : String :=
  if records.length = 0 then ""
  else String.intercalate ("\n")
    (String.intercalate (",") csvHeaders
      :: records.map (fun record => String.intercalate (",") (recordCSVFields record)))

/-! ## Spec-side predicates (stated from the specification's words) -/

/-- Spec-side filter predicate, following claim C1's words: a record is kept
iff, for every active filter entry, its stringified field value
case-insensitively contains at least one accepted value as a substring
(OR within a field, AND across fields; entries with an empty accepted set are
not active). -/
def passesAllFilters (filters : List (String × List String))
    (record : DiscountRecord) : Bool :=
  filters.all (fun fv => fv.2.isEmpty ||
    fv.2.any (fun v => strIncludes (lowerStr (jsFieldString record fv.1)) (lowerStr v)))

/-- Spec-side patch validity, following claim C7's words: the percent, when
present, lies in `[0, 100]`; each date, when present (non-empty), matches
`yyyy-mm-dd`; and when both dates are present and denote real calendar dates,
the end strictly follows the start. -/
def specPatchValid (u : BulkUpdateData) : Prop :=
  (∀ p, u.discountPercent = some p → 0 ≤ p ∧ p ≤ 100) ∧
  (∀ s, u.startDate = some s → s ≠ "" → matchesDatePattern s = true) ∧
  (∀ s, u.endDate = some s → s ≠ "" → matchesDatePattern s = true) ∧
  (∀ s e, u.startDate = some s → u.endDate = some e → s ≠ "" → e ≠ "" →
    ∀ ys ms ds ye me de, parseYMD s = some (ys, ms, ds) →
      parseYMD e = some (ye, me, de) → toDayNumber ys ms ds < toDayNumber ye me de)

/-- The computed-field invariant of claim C3: every stored record's `month` and
`length` agree with the pure functions of its date fields. -/
def computedFieldsInv (st : StoreState) : Prop :=
  ∀ r ∈ st.rawData, r.month = some (getMonthName r.startDate) ∧
    r.length = some (calculateDaysBetween r.startDate r.endDate)

/-- The `clientId`-uniqueness invariant of claim C4. -/
def clientIdsNodup (st : StoreState) : Prop :=
  (st.rawData.map (fun r => r.clientId)).Nodup

/-! ## An RFC-4180-style CSV parser (the external parse of claim C8) -/

/-- One-pass RFC-4180-style CSV scanner.  `inQ` says whether the head of the
input lies inside a quoted region; `field`, `row` and `rows` accumulate the
current field's characters, the current row's finished fields and the finished
rows.  Outside a quoted region, `"` opens one, `,` ends the field and `\n`
the row; inside, `""` contributes a literal quote and a single `"` closes the
region, with the character after it handled as separator or content. -/
def csvScanF (inQ : Bool) (field : List Char) (row : List (List Char))
    (rows : List (List (List Char))) : List Char → List (List (List Char))
  | [] => rows ++ [row ++ [field]]
  | c :: rest =>
    if inQ then
      if c = '"' then
        match rest with
        | c2 :: rest2 =>
          if c2 = '"' then csvScanF true (field ++ ['"']) row rows rest2
          else if c2 = ',' then csvScanF false [] (row ++ [field]) rows rest2
          else if c2 = '\n' then csvScanF false [] [] (rows ++ [row ++ [field]]) rest2
          else csvScanF false (field ++ [c2]) row rows rest2
        | [] => rows ++ [row ++ [field]]
      else csvScanF true (field ++ [c]) row rows rest
    else
      if c = '"' then csvScanF true field row rows rest
      else if c = ',' then csvScanF false [] (row ++ [field]) rows rest
      else if c = '\n' then csvScanF false [] [] (rows ++ [row ++ [field]]) rest
      else csvScanF false (field ++ [c]) row rows rest

/-- Parse CSV text into rows of unescaped field values. -/
def parseCSV (text : String) : List (List String) :=
  (csvScanF false [] [] [] text.data).map (fun row => row.map String.mk)

/-- The unescaped cell values of one record's CSV row, in the fixed 16-column
order (the values `convertToCSV` serializes, before escaping). -/
def recordCellValues (record : DiscountRecord) : List String :=
  [record.clientId, record.client, record.platform, record.region,
   record.discount, record.startDate, record.startTime, record.endDate,
   record.endTime, intRepr record.percent, record.deadline,
   record.implementationStatus, record.salesEventStatus, record.comments,
   getMonthName record.startDate,
   intRepr (calculateDaysBetween record.startDate record.endDate)]

/-! ## Concrete data for witnesses and counterexamples -/

/-- A concrete schema-valid record used by witnesses. -/
def sampleRecord : DiscountRecord :=
  { clientId := "ORG_V_000001", client := "Valve", platform := "Steam",
    region := "Global", discount := "Summer Sale", startDate := "2024-05-01",
    startTime := "10:00", endDate := "2024-05-11", endTime := "12:30",
    percent := 20, deadline := "2024-04-20",
    implementationStatus := "Pending", salesEventStatus := "Planned",
    comments := "Approved by management" }

/-! ## Helper lemmas: decimal rendering -/

theorem natReprAux_fuel_irrel :
    ∀ f1 f2 n, n < f1 → n < f2 → natReprAux f1 n = natReprAux f2 n := by
  intro f1
  induction f1 with
  | zero => intro f2 n h1; omega
  | succ f ih =>
    intro f2 n h1 h2
    cases f2 with
    | zero => omega
    | succ g =>
      simp only [natReprAux]
      by_cases h10 : n < 10
      · simp [h10]
      · simp only [h10, if_false]
        have hd : n / 10 < n := Nat.div_lt_self (by omega) (by omega)
        rw [ih g (n / 10) (by omega) (by omega)]

theorem natReprList_unfold (n : Nat) :
    natReprList n = if n < 10 then [digitChar n]
      else natReprList (n / 10) ++ [digitChar (n % 10)] := by
  by_cases h10 : n < 10
  · simp [natReprList, natReprAux, h10]
  · have hstep : natReprAux (n + 1) n
        = if n < 10 then [digitChar n] else natReprAux n (n / 10) ++ [digitChar (n % 10)] := rfl
    have hd : n / 10 < n := Nat.div_lt_self (by omega) (by omega)
    rw [if_neg h10] at hstep
    unfold natReprList
    rw [hstep, natReprAux_fuel_irrel n (n / 10 + 1) (n / 10) hd (by omega), if_neg h10]

theorem digitVal_digitChar (k : Nat) (h : k < 10) : digitVal (digitChar k) = k := by
  interval_cases k <;> decide

theorem isDigitChar_digitChar (k : Nat) (h : k < 10) : isDigitChar (digitChar k) = true := by
  interval_cases k <;> decide

theorem digitChar_ne_specials (k : Nat) (h : k < 10) :
    digitChar k ≠ ',' ∧ digitChar k ≠ '"' ∧ digitChar k ≠ '\n' ∧ digitChar k ≠ '_' := by
  interval_cases k <;> refine ⟨by decide, by decide, by decide, by decide⟩

theorem digitsToNat_foldl_shift (l : List Char) :
    ∀ a, List.foldl (fun a c => 10 * a + digitVal c) a l
      = a * 10 ^ l.length + digitsToNat l := by
  induction l with
  | nil => intro a; simp [digitsToNat]
  | cons c t ih =>
    intro a
    simp only [List.foldl_cons, List.length_cons, digitsToNat]
    rw [ih (10 * a + digitVal c), ih (10 * 0 + digitVal c)]
    ring

theorem digitsToNat_append (l1 l2 : List Char) :
    digitsToNat (l1 ++ l2) = digitsToNat l1 * 10 ^ l2.length + digitsToNat l2 := by
  unfold digitsToNat
  rw [List.foldl_append]
  exact digitsToNat_foldl_shift l2 _

theorem digitsToNat_natReprList (n : Nat) : digitsToNat (natReprList n) = n := by
  induction n using Nat.strong_induction_on with
  | _ n ih =>
    rw [natReprList_unfold]
    by_cases h10 : n < 10
    · simp only [h10, if_true]
      simp [digitsToNat, digitVal_digitChar n h10]
    · simp only [h10, if_false]
      rw [digitsToNat_append]
      have hd : n / 10 < n := Nat.div_lt_self (by omega) (by omega)
      rw [ih (n / 10) hd]
      simp [digitsToNat, digitVal_digitChar (n % 10) (Nat.mod_lt n (by omega))]
      omega

theorem natReprList_all_digits (n : Nat) :
    ∀ c ∈ natReprList n, isDigitChar c = true := by
  induction n using Nat.strong_induction_on with
  | _ n ih =>
    rw [natReprList_unfold]
    by_cases h10 : n < 10
    · simp only [h10, if_true, List.mem_singleton]
      intro c hc; subst hc; exact isDigitChar_digitChar n h10
    · simp only [h10, if_false, List.mem_append, List.mem_singleton]
      intro c hc
      rcases hc with hc | hc
      · exact ih (n / 10) (Nat.div_lt_self (by omega) (by omega)) c hc
      · subst hc; exact isDigitChar_digitChar (n % 10) (Nat.mod_lt n (by omega))

/-! ## C5, C2, C6 -/

/-- **C5**: if generation throws during `load`, the error state holds the
failure message, the loading flag is cleared, and the store's record
collection is exactly what it was before the call (no partial or destructive
replacement on failure). -/
theorem loadData_failure_leaves_data (st : StoreState) (msg : String) :
    (loadData st (Except.error msg)).error = some msg ∧
    (loadData st (Except.error msg)).isLoading = false ∧
    (loadData st (Except.error msg)).rawData = st.rawData :=
  ⟨rfl, rfl, rfl⟩

/-- **C2**: `bulkUpdate [recordA] {discountPercent: 50}` invokes the callback
exactly once with a record equal to `recordA` in every field except `percent`,
which equals 50; afterwards `operationProgress` is 0 and
`lastOperationResult` contains "Successfully updated 1". -/
theorem bulkUpdate_single_percent_fifty (recordA : DiscountRecord) (st : BulkState) :
    (bulkUpdate [recordA] { discountPercent := some 50 } st).calls
      = [{ recordA with percent := 50 }] ∧
    (bulkUpdate [recordA] { discountPercent := some 50 } st).state.operationProgress = 0 ∧
    ∃ msg, (bulkUpdate [recordA] { discountPercent := some 50 } st).state.lastOperationResult
        = some msg ∧ strIncludes msg ("Successfully updated 1") = true := by
  refine ⟨rfl, rfl, "Successfully updated 1 records", ?_, by decide⟩
  show some ("Successfully updated " ++ natRepr 1 ++ " records")
      = some ("Successfully updated 1 records")
  decide

/-- **C6**: the three bulk operations invoked with an empty selection reject
with an error before invoking the callback and before any state change; for
every non-empty selection, `bulkDelete` invokes the callback exactly once with
the selected records' `clientId`s. -/
theorem bulk_empty_guard_and_delete_calls :
    (∀ st, (bulkDelete [] st).state = st ∧ (bulkDelete [] st).calls = [] ∧
      (bulkDelete [] st).outcome = Except.error ("No records selected for deletion")) ∧
    (∀ u st, (bulkUpdate [] u st).state = st ∧ (bulkUpdate [] u st).calls = [] ∧
      (bulkUpdate [] u st).outcome = Except.error ("No records selected for bulk update")) ∧
    (∀ fn nowISO st, (exportToCSV [] fn nowISO st).state = st ∧
      (exportToCSV [] fn nowISO st).calls = [] ∧
      (exportToCSV [] fn nowISO st).outcome = Except.error ("No records to export")) ∧
    (∀ records st, records ≠ [] →
      (bulkDelete records st).calls = [records.map (fun r => r.clientId)]) := by
  refine ⟨fun st => ⟨rfl, rfl, rfl⟩, fun u st => ⟨rfl, rfl, rfl⟩,
    fun fn nowISO st => ⟨rfl, rfl, rfl⟩, fun records st h => ?_⟩
  unfold bulkDelete
  rw [if_neg (by simpa [List.length_eq_zero] using h)]

/-- Witness for C6: `bulkDelete` on the one-record selection with
`clientId = "X"` invokes the callback with `["X"]` exactly once. -/
theorem bulk_empty_guard_and_delete_calls_witness :
    (bulkDelete [{ sampleRecord with clientId := "X" }]
      { isProcessing := false, operationProgress := 0, lastOperationResult := none }).calls
      = [["X"]] := by
  have h := bulk_empty_guard_and_delete_calls.2.2.2
    [{ sampleRecord with clientId := "X" }]
    { isProcessing := false, operationProgress := 0, lastOperationResult := none }
    (by decide)
  simpa using h

/-! ## C1: the filtered view -/

theorem foldl_applyFieldFilter :
    ∀ (filters : List (String × List String)) (rawData : List DiscountRecord),
    filters.foldl (fun result fv => applyFieldFilter result fv.1 fv.2) rawData
      = rawData.filter (passesAllFilters filters) := by
  intro filters
  induction filters with
  | nil =>
    intro rawData
    rw [List.foldl_nil, eq_comm, List.filter_eq_self]
    intro a _
    rfl
  | cons f fs ih =>
    intro rawData
    simp only [List.foldl_cons]
    rw [ih]
    unfold applyFieldFilter
    by_cases hv : 0 < f.2.length
    · rw [if_pos hv, List.filter_filter]
      apply List.filter_congr
      intro r _
      have hne : f.2.isEmpty = false := by
        cases hl : f.2 with
        | nil => rw [hl] at hv; simp at hv
        | cons a t => simp [hl]
      simp [passesAllFilters, List.all_cons, hne, Bool.and_comm]
    · rw [if_neg hv]
      apply List.filter_congr
      intro r _
      have hl : f.2 = [] := by
        rw [List.length_pos] at hv
        simpa using hv
      simp [passesAllFilters, List.all_cons, hl]

/-- **C1**: with no active filter, `filteredData` returns the raw collection
itself; with filters active, it returns exactly the records that pass every
active field filter (case-insensitive substring match against at least one
accepted value per active field, AND across fields). -/
theorem filteredData_spec :
    (∀ rawData, filteredData [] rawData = rawData) ∧
    (∀ filters rawData, filteredData filters rawData
        = rawData.filter (passesAllFilters filters)) := by
  constructor
  · intro rawData; rfl
  · intro filters rawData
    cases filters with
    | nil =>
      show rawData = _
      rw [eq_comm, List.filter_eq_self]
      intro a _
      rfl
    | cons f fs =>
      show filteredData (f :: fs) rawData = _
      unfold filteredData
      rw [if_neg (by simp)]
      exact foldl_applyFieldFilter (f :: fs) rawData

/-! ## C7: bulk-update patch validation -/

theorem percentErrors_eq_nil (u : BulkUpdateData) :
    percentErrors u = [] ↔ (∀ p, u.discountPercent = some p → 0 ≤ p ∧ p ≤ 100) := by
  unfold percentErrors
  rcases hdp : u.discountPercent with _ | p
  · simp
  · dsimp only
    by_cases hp : p < 0 || 100 < p
    · rw [if_pos hp]
      simp only [decide_eq_true_eq, Bool.or_eq_true, decide_eq_true_eq] at hp
      constructor
      · intro h; exact absurd h (by simp)
      · intro h; exfalso; have := h p rfl; omega
    · rw [if_neg hp]
      simp only [Bool.or_eq_true, decide_eq_true_eq, not_or, not_lt] at hp
      constructor
      · intro _ q hq; injection hq with hq; subst hq; omega
      · intro _; rfl

theorem startDateErrors_eq_nil (u : BulkUpdateData) :
    startDateErrors u = []
      ↔ (∀ s, u.startDate = some s → s ≠ "" → matchesDatePattern s = true) := by
  unfold startDateErrors
  rcases hsd : u.startDate with _ | s
  · simp
  · dsimp only
    by_cases hc : s ≠ "" && !matchesDatePattern s
    · rw [if_pos hc]
      simp only [Bool.and_eq_true, Bool.not_eq_true', decide_eq_true_eq] at hc
      constructor
      · intro h; exact absurd h (by simp)
      · intro h; exfalso; exact absurd (h s rfl hc.1) (by simp [hc.2])
    · rw [if_neg hc]
      simp only [Bool.and_eq_true, Bool.not_eq_true', decide_eq_true_eq, not_and] at hc
      constructor
      · intro _ t ht hne
        injection ht with ht; subst ht
        have := hc hne
        simpa using this
      · intro _; rfl

theorem endDateErrors_eq_nil (u : BulkUpdateData) :
    endDateErrors u = []
      ↔ (∀ s, u.endDate = some s → s ≠ "" → matchesDatePattern s = true) := by
  unfold endDateErrors
  rcases hed : u.endDate with _ | s
  · simp
  · dsimp only
    by_cases hc : s ≠ "" && !matchesDatePattern s
    · rw [if_pos hc]
      simp only [Bool.and_eq_true, Bool.not_eq_true', decide_eq_true_eq] at hc
      constructor
      · intro h; exact absurd h (by simp)
      · intro h; exfalso; exact absurd (h s rfl hc.1) (by simp [hc.2])
    · rw [if_neg hc]
      simp only [Bool.and_eq_true, Bool.not_eq_true', decide_eq_true_eq, not_and] at hc
      constructor
      · intro _ t ht hne
        injection ht with ht; subst ht
        have := hc hne
        simpa using this
      · intro _; rfl

theorem dateOrderErrors_eq_nil (u : BulkUpdateData) :
    dateOrderErrors u = []
      ↔ (∀ s e, u.startDate = some s → u.endDate = some e → s ≠ "" → e ≠ "" →
          ∀ ys ms ds ye me de, parseYMD s = some (ys, ms, ds) →
            parseYMD e = some (ye, me, de) →
            toDayNumber ys ms ds < toDayNumber ye me de) := by
  unfold dateOrderErrors
  rcases hsd : u.startDate with _ | s
  · simp
  · rcases hed : u.endDate with _ | e
    · simp
    · dsimp only
      by_cases htr : s ≠ "" && e ≠ ""
      · rw [if_pos htr]
        simp only [Bool.and_eq_true, decide_eq_true_eq] at htr
        rcases hps : parseYMD s with _ | ⟨⟨ys, ms, ds⟩⟩
        · simp [hps]
        · rcases hpe : parseYMD e with _ | ⟨⟨ye, me, de⟩⟩
          · simp [hps, hpe]
          · dsimp only
            by_cases hle : toDayNumber ye me de ≤ toDayNumber ys ms ds
            · rw [if_pos hle]
              constructor
              · intro h; exact absurd h (by simp)
              · intro h
                exfalso
                have := h s e rfl rfl htr.1 htr.2 ys ms ds ye me de hps hpe
                omega
            · rw [if_neg hle]
              constructor
              · intro _ t t2 ht ht2 _ _ ys2 ms2 ds2 ye2 me2 de2 hps2 hpe2
                injection ht with ht; subst ht
                injection ht2 with ht2; subst ht2
                rw [hps] at hps2
                rw [hpe] at hpe2
                injection hps2 with hps2
                injection hpe2 with hpe2
                obtain ⟨h1, h2, h3⟩ : ys2 = ys ∧ ms2 = ms ∧ ds2 = ds := by
                  simpa [Prod.ext_iff] using hps2.symm
                obtain ⟨h4, h5, h6⟩ : ye2 = ye ∧ me2 = me ∧ de2 = de := by
                  simpa [Prod.ext_iff] using hpe2.symm
                subst h1; subst h2; subst h3; subst h4; subst h5; subst h6
                omega
              · intro _; rfl
      · rw [if_neg htr]
        simp only [Bool.and_eq_true, decide_eq_true_eq, not_and] at htr
        constructor
        · intro _ t t2 ht ht2 hne hne2 _ _ _ _ _ _ _ _
          injection ht with ht; subst ht
          injection ht2 with ht2; subst ht2
          exact absurd hne2 (by tauto)
        · intro _; rfl

/-- **C7**: `validateBulkUpdateData` returns the empty list iff the patch is
valid in the claimed sense (percent in range when present, dates matching
`yyyy-mm-dd` when present, end strictly after start when both parse); and the
end-before-start patch of the end-to-end scenario yields a non-empty list
containing the end-before-start error. -/
theorem validateBulkUpdateData_spec :
    (∀ u, validateBulkUpdateData u = [] ↔ specPatchValid u) ∧
    ("End date must be after start date") ∈ validateBulkUpdateData
        { startDate := some ("2024-05-10"), endDate := some ("2024-05-01") } ∧
    validateBulkUpdateData
        { startDate := some ("2024-05-10"), endDate := some ("2024-05-01") } ≠ [] := by
  refine ⟨fun u => ?_, by decide, by decide⟩
  unfold validateBulkUpdateData specPatchValid
  simp only [List.append_eq_nil]
  rw [percentErrors_eq_nil, startDateErrors_eq_nil, endDateErrors_eq_nil,
    dateOrderErrors_eq_nil]
  tauto

/-! ## C10: unique filter-option values -/

theorem mem_insertSorted (x a : String) (l : List String) :
    a ∈ insertSorted x l ↔ a = x ∨ a ∈ l := by
  induction l with
  | nil => simp [insertSorted]
  | cons y t ih =>
    unfold insertSorted
    by_cases h : x ≤ y
    · rw [if_pos h]
      simp
    · rw [if_neg h]
      simp only [List.mem_cons, ih]
      tauto

theorem mem_sortStrings (a : String) (l : List String) : a ∈ sortStrings l ↔ a ∈ l := by
  induction l with
  | nil => simp [sortStrings]
  | cons y t ih =>
    show a ∈ insertSorted y (sortStrings t) ↔ a ∈ y :: t
    rw [mem_insertSorted, ih]
    simp

/-- **C10**: `getUniqueValues` never lists the empty string; a record whose
per-field value collapses to the empty string (an empty free-text value or,
through the `|| ''` fallback, the number 0 — e.g. `percent` 0) contributes
nothing, while a recomputed `length` of 0 is still listed as `"0"`. -/
theorem getUniqueValues_spec :
    (∀ rawData field, ("") ∉ getUniqueValues rawData field) ∧
    (∀ r rest field, uniqueFieldValue r field = "" →
      getUniqueValues (r :: rest) field = getUniqueValues rest field) ∧
    (∀ r, r.percent = 0 → uniqueFieldValue r ("percent") = "") ∧
    (∀ r, r.comments = "" → uniqueFieldValue r ("comments") = "") ∧
    (∀ r rest, calculateDaysBetween r.startDate r.endDate = 0 →
      ("0") ∈ getUniqueValues (r :: rest) ("length")) := by
  refine ⟨?_, ?_, ?_, ?_, ?_⟩
  · intro rawData field h
    rw [getUniqueValues, mem_sortStrings, List.mem_dedup, List.mem_filter] at h
    simpa using h.2
  · intro r rest field h
    unfold getUniqueValues
    simp [h]
  · intro r h
    simp [uniqueFieldValue, jsFieldString, h]
  · intro r h
    simp [uniqueFieldValue, jsFieldString, h]
  · intro r rest h
    rw [getUniqueValues, mem_sortStrings, List.mem_dedup, List.mem_filter]
    constructor
    · rw [List.mem_map]
      refine ⟨r, List.mem_cons_self r rest, ?_⟩
      rw [show uniqueFieldValue r ("length")
          = intRepr (calculateDaysBetween r.startDate r.endDate) from by
        simp [uniqueFieldValue]]
      rw [h]
      decide
    · decide

/-- Witness for C10: a record with `percent` 0 contributes no `percent`
filter option, and a record spanning 0 days is listed under `length` as
`"0"`. -/
theorem getUniqueValues_spec_witness :
    getUniqueValues [{ sampleRecord with percent := 0 }] ("percent")
        = getUniqueValues [] ("percent") ∧
    ("0") ∈ getUniqueValues [{ sampleRecord with endDate := "2024-05-01" }] ("length") := by
  constructor
  · exact getUniqueValues_spec.2.1 { sampleRecord with percent := 0 } [] ("percent")
      (getUniqueValues_spec.2.2.1 { sampleRecord with percent := 0 } rfl)
  · exact getUniqueValues_spec.2.2.2.2 { sampleRecord with endDate := "2024-05-01" } []
      (by decide)

/-! ## C3: the computed-field invariant -/

theorem mem_set_cases {α : Type} (l : List α) :
    ∀ (i : Nat) (a x : α), x ∈ l.set i a → x = a ∨ x ∈ l := by
  induction l with
  | nil => intro i a x h; simp at h
  | cons y t ih =>
    intro i a x h
    cases i with
    | zero =>
      rcases List.mem_cons.mp h with h | h
      · exact Or.inl h
      · exact Or.inr (List.mem_cons_of_mem _ h)
    | succ j =>
      rcases List.mem_cons.mp h with h | h
      · exact Or.inr (by simp [h])
      · rcases ih j a x h with h | h
        · exact Or.inl h
        · exact Or.inr (List.mem_cons_of_mem _ h)

/-- **C3**: the invariant "`month` and `length` agree with the pure functions
of the date fields" holds after `load` and is preserved by `updateRecord`,
`addRecord`, `deleteRecord` and `deleteRecords` — every path that mutates a
record recomputes both computed fields before the record re-enters the
store. -/
theorem computedFieldsInv_preserved (st : StoreState) (h : computedFieldsInv st) :
    (∀ gen, computedFieldsInv (loadData st gen)) ∧
    (∀ r, computedFieldsInv (updateRecord st r)) ∧
    (∀ r, computedFieldsInv (addRecord st r)) ∧
    (∀ cid, computedFieldsInv (deleteRecord st cid)) ∧
    (∀ cids, computedFieldsInv (deleteRecords st cids)) := by
  refine ⟨?_, ?_, ?_, ?_, ?_⟩
  · intro gen
    cases gen with
    | ok data =>
      intro r hr
      simp only [loadData, List.mem_map] at hr
      obtain ⟨r0, _, hr0⟩ := hr
      subst hr0
      exact ⟨rfl, rfl⟩
    | error msg => exact fun r hr => h r hr
  · intro rec r hr
    rcases hidx : st.rawData.findIdx? (fun record => record.clientId = rec.clientId)
      with _ | idx
    · simp only [updateRecord, hidx] at hr
      exact h r hr
    · simp only [updateRecord, hidx] at hr
      rcases mem_set_cases _ _ _ _ hr with h1 | h1
      · subst h1; exact ⟨rfl, rfl⟩
      · exact h r h1
  · intro rec r hr
    simp only [addRecord, List.mem_append, List.mem_singleton] at hr
    rcases hr with h1 | h1
    · exact h r h1
    · subst h1; exact ⟨rfl, rfl⟩
  · intro cid r hr
    rcases hidx : st.rawData.findIdx? (fun record => record.clientId = cid) with _ | idx
    · simp only [deleteRecord, hidx] at hr
      exact h r hr
    · simp only [deleteRecord, hidx] at hr
      exact h r ((List.eraseIdx_sublist _ idx).subset hr)
  · intro cids r hr
    simp only [deleteRecords] at hr
    exact h r ((List.filter_sublist _).subset hr)

/-- Witness for C3: the invariant holds on the empty store and survives
adding a concrete record. -/
theorem computedFieldsInv_preserved_witness :
    computedFieldsInv (addRecord { rawData := [] } sampleRecord) :=
  (computedFieldsInv_preserved { rawData := [] }
    (fun r hr => absurd hr (by simp))).2.2.1 sampleRecord

/-! ## C4: clientId uniqueness -/

theorem set_getElem?_self {α : Type} (l : List α) :
    ∀ (i : Nat) (a : α), l[i]? = some a → l.set i a = l := by
  induction l with
  | nil => intro i a h; simp at h
  | cons y t ih =>
    intro i a h
    cases i with
    | zero =>
      rw [List.getElem?_cons_zero] at h
      injection h with h
      simp [h]
    | succ j =>
      rw [List.getElem?_cons_succ] at h
      simp [ih j a h]

theorem append_underscore_inj : ∀ (s1 s2 p1 p2 : List Char),
    (∀ c ∈ s1, c ≠ '_') → (∀ c ∈ s2, c ≠ '_') →
    s1 ++ '_' :: p1 = s2 ++ '_' :: p2 → s1 = s2 ∧ p1 = p2 := by
  intro s1
  induction s1 with
  | nil =>
    intro s2 p1 p2 _ h2 h
    cases s2 with
    | nil => simpa using h
    | cons c t =>
      exfalso
      simp only [List.nil_append, List.cons_append, List.cons.injEq] at h
      exact h2 c (by simp) h.1.symm
  | cons c t ih =>
    intro s2 p1 p2 h1 h2 h
    cases s2 with
    | nil =>
      exfalso
      simp only [List.cons_append, List.nil_append, List.cons.injEq] at h
      exact h1 c (by simp) h.1
    | cons c2 t2 =>
      simp only [List.cons_append, List.cons.injEq] at h
      obtain ⟨hc, ht⟩ := h
      obtain ⟨hs, hp⟩ := ih t2 p1 p2 (fun x hx => h1 x (by simp [hx]))
        (fun x hx => h2 x (by simp [hx])) ht
      exact ⟨by rw [hc, hs], hp⟩

theorem digitsToNat_cons_zero (l : List Char) :
    digitsToNat ('0' :: l) = digitsToNat l := by
  unfold digitsToNat
  rw [List.foldl_cons, show (10 * 0 + digitVal '0') = 0 from rfl]

theorem digitsToNat_replicate_zero (k : Nat) (l : List Char) :
    digitsToNat (List.replicate k '0' ++ l) = digitsToNat l := by
  induction k with
  | zero => simp
  | succ j ih =>
    rw [List.replicate_succ, List.cons_append, digitsToNat_cons_zero, ih]

theorem mkClientId_inj (c1 c2 : String) (i1 i2 : Nat)
    (h : mkClientId c1 i1 = mkClientId c2 i2) : i1 = i2 := by
  unfold mkClientId at h
  have hdata : (['O', 'R', 'G', '_'] ++ (upperOnly c1).data) ++ '_'
        :: (jsPadStart 6 '0' (natRepr i1)).data
      = (['O', 'R', 'G', '_'] ++ (upperOnly c2).data) ++ '_'
        :: (jsPadStart 6 '0' (natRepr i2)).data := by
    have := congrArg String.data h
    simpa [List.append_assoc] using this
  have hup : ∀ (c : String), ∀ x ∈ ('O' :: 'R' :: 'G' :: '_' :: []) ++ (upperOnly c).data,
      True := fun _ _ _ => trivial
  rw [List.append_assoc, List.append_assoc] at hdata
  have h4 : (upperOnly c1).data ++ '_' :: (jsPadStart 6 '0' (natRepr i1)).data
      = (upperOnly c2).data ++ '_' :: (jsPadStart 6 '0' (natRepr i2)).data := by
    simpa using hdata
  have hfree : ∀ (c : String), ∀ x ∈ (upperOnly c).data, x ≠ '_' := by
    intro c x hx heq
    have hmem := List.mem_filter.mp hx
    subst heq
    exact absurd hmem.2 (by decide)
  obtain ⟨_, hp⟩ := append_underscore_inj _ _ _ _ (hfree c1) (hfree c2) h4
  have hv := congrArg digitsToNat hp
  simpa [jsPadStart, natRepr, digitsToNat_replicate_zero, digitsToNat_natReprList] using hv

theorem generateMockData_ids_nodup (count : Nat) (oracle : Nat → GenChoices) :
    ((generateMockData count oracle).map (fun r => r.clientId)).Nodup := by
  unfold generateMockData
  rw [List.map_map]
  apply List.Nodup.map_on ?_ (List.nodup_range count)
  intro x _ y _ hxy
  exact mkClientId_inj (oracle x).client (oracle y).client x y hxy

/-- Counterexample for C4 as stated: `addRecord` performs no duplicate check,
so adding a record whose `clientId` is already stored destroys uniqueness
while every record in the resulting store came through a store operation. -/
theorem addRecord_duplicate_counterexample :
    clientIdsNodup { rawData := [sampleRecord] } ∧
    ¬ clientIdsNodup (addRecord { rawData := [sampleRecord] } sampleRecord) := by
  constructor
  · show List.Nodup _
    decide
  · show ¬ List.Nodup _
    decide

/-- **C4 (amended)**: `clientId` uniqueness is established by `load` through
the generator's index-based `clientId` construction, and preserved by
`updateRecord`, `deleteRecord` and `deleteRecords`; `addRecord` preserves it
only when the added record's `clientId` is not already present (the source
pushes without any duplicate check). -/
theorem clientIdsNodup_spec :
    (∀ st count oracle,
      clientIdsNodup (loadData st (Except.ok (generateMockData count oracle)))) ∧
    (∀ st r, clientIdsNodup st → clientIdsNodup (updateRecord st r)) ∧
    (∀ st cid, clientIdsNodup st → clientIdsNodup (deleteRecord st cid)) ∧
    (∀ st cids, clientIdsNodup st → clientIdsNodup (deleteRecords st cids)) ∧
    (∀ st r, clientIdsNodup st → r.clientId ∉ st.rawData.map (fun x => x.clientId) →
      clientIdsNodup (addRecord st r)) := by
  refine ⟨?_, ?_, ?_, ?_, ?_⟩
  · intro st count oracle
    show (((generateMockData count oracle).map withComputedFields).map
      (fun r => r.clientId)).Nodup
    rw [List.map_map]
    exact generateMockData_ids_nodup count oracle
  · intro st rec h
    rcases hidx : st.rawData.findIdx? (fun record => record.clientId = rec.clientId)
      with _ | idx
    · simpa only [clientIdsNodup, updateRecord, hidx] using h
    · obtain ⟨hlt, hfi⟩ := List.findIdx?_eq_some_iff_findIdx_eq.mp hidx
      have hpid : (st.rawData[idx]).clientId = rec.clientId := by
        have hw : st.rawData.findIdx (fun record => record.clientId = rec.clientId)
            < st.rawData.length := by rw [hfi]; exact hlt
        have := @List.findIdx_getElem _ (fun record => record.clientId = rec.clientId)
          st.rawData hw
        simp only [decide_eq_true_eq] at this
        simpa [hfi] using this
      show clientIdsNodup _
      unfold clientIdsNodup
      simp only [updateRecord, hidx, List.map_set]
      have hget : (st.rawData.map (fun r => r.clientId))[idx]?
          = some ((withComputedFields rec).clientId) := by
        rw [List.getElem?_map, List.getElem?_eq_getElem hlt]
        simp [hpid, withComputedFields]
      rw [set_getElem?_self _ idx _ hget]
      exact h
  · intro st cid h
    rcases hidx : st.rawData.findIdx? (fun record => record.clientId = cid) with _ | idx
    · simpa only [clientIdsNodup, deleteRecord, hidx] using h
    · unfold clientIdsNodup at h ⊢
      simp only [deleteRecord, hidx]
      exact ((List.eraseIdx_sublist st.rawData idx).map
        (fun r => r.clientId)).nodup h
  · intro st cids h
    unfold clientIdsNodup at h ⊢
    simp only [deleteRecords]
    exact ((List.filter_sublist st.rawData).map (fun r => r.clientId)).nodup h
  · intro st rec h hmem
    unfold clientIdsNodup at h ⊢
    simp only [addRecord, List.map_append]
    rw [List.nodup_append]
    refine ⟨h, by simp, ?_⟩
    intro a ha hb
    rcases List.mem_singleton.mp hb with rfl
    exact hmem (by simpa using ha)

/-- Witness for C4: the preserving operations applied at a concrete store. -/
theorem clientIdsNodup_spec_witness :
    clientIdsNodup (updateRecord { rawData := [sampleRecord] }
        { sampleRecord with percent := 50 }) ∧
    clientIdsNodup (addRecord { rawData := [sampleRecord] }
        { sampleRecord with clientId := "Y" }) := by
  constructor
  · exact clientIdsNodup_spec.2.1 { rawData := [sampleRecord] }
      { sampleRecord with percent := 50 } (by show List.Nodup _; decide)
  · exact clientIdsNodup_spec.2.2.2.2 { rawData := [sampleRecord] }
      { sampleRecord with clientId := "Y" } (by show List.Nodup _; decide) (by decide)

/-! ## C9: month names of well-formed dates -/

theorem str_data_append (a b : String) : (a ++ b).data = a.data ++ b.data := rfl

theorem natReprList_four (n : Nat) (h1 : 1000 ≤ n) (h2 : n ≤ 9999) :
    natReprList n = [digitChar (n / 1000), digitChar (n / 100 % 10),
      digitChar (n / 10 % 10), digitChar (n % 10)] := by
  rw [natReprList_unfold n, if_neg (by omega)]
  rw [natReprList_unfold (n / 10), if_neg (by omega)]
  rw [natReprList_unfold (n / 10 / 10), if_neg (by omega)]
  rw [natReprList_unfold (n / 10 / 10 / 10), if_pos (by omega)]
  have e1 : n / 10 / 10 / 10 = n / 1000 := by omega
  have e2 : n / 10 / 10 % 10 = n / 100 % 10 := by
    have : n / 10 / 10 = n / 100 := by omega
    rw [this]
  rw [e1, e2]
  rfl

theorem jsPadStart_two_digits (m : Nat) (h : m ≤ 99) :
    (jsPadStart 2 '0' (natRepr m)).data = [digitChar (m / 10), digitChar (m % 10)] := by
  show List.replicate (2 - (natReprList m).length) '0' ++ natReprList m = _
  by_cases h10 : m < 10
  · rw [show natReprList m = [digitChar m] from by rw [natReprList_unfold, if_pos h10]]
    have hd : m / 10 = 0 := by omega
    have hm : m % 10 = m := by omega
    rw [hd, hm]
    rfl
  · rw [show natReprList m = [digitChar (m / 10), digitChar (m % 10)] from by
      rw [natReprList_unfold, if_neg h10, natReprList_unfold (m / 10),
        if_pos (by omega)]
      rfl]
    rfl

theorem daysInMonth_le (y m : Nat) : daysInMonth y m ≤ 31 := by
  unfold daysInMonth
  by_cases h1 : m = 1
  · rw [if_pos h1]
  · rw [if_neg h1]
    by_cases h2 : m = 2
    · rw [if_pos h2]
      by_cases hl : isLeapYear y
      · rw [if_pos hl]; omega
      · rw [if_neg hl]; omega
    · rw [if_neg h2]
      by_cases h3 : m = 3
      · rw [if_pos h3]
      · rw [if_neg h3]
        by_cases h4 : m = 4
        · rw [if_pos h4]; omega
        · rw [if_neg h4]
          by_cases h5 : m = 5
          · rw [if_pos h5]
          · rw [if_neg h5]
            by_cases h6 : m = 6
            · rw [if_pos h6]; omega
            · rw [if_neg h6]
              by_cases h7 : m = 7
              · rw [if_pos h7]
              · rw [if_neg h7]
                by_cases h8 : m = 8
                · rw [if_pos h8]
                · rw [if_neg h8]
                  by_cases h9 : m = 9
                  · rw [if_pos h9]; omega
                  · rw [if_neg h9]
                    by_cases h10 : m = 10
                    · rw [if_pos h10]
                    · rw [if_neg h10]
                      by_cases h11 : m = 11
                      · rw [if_pos h11]; omega
                      · rw [if_neg h11]
                        by_cases h12 : m = 12
                        · rw [if_pos h12]
                        · rw [if_neg h12]; omega

theorem parseYMD_formatDate (y m d : Nat) (hy1 : 1000 ≤ y) (hy2 : y ≤ 9999)
    (hm1 : 1 ≤ m) (hm2 : m ≤ 12) (hd1 : 1 ≤ d) (hd2 : d ≤ daysInMonth y m) :
    parseYMD (formatDate y m d) = some (y, m, d) := by
  have hd99 : d ≤ 99 := by have := daysInMonth_le y m; omega
  have hdata : (formatDate y m d).data
      = [digitChar (y / 1000), digitChar (y / 100 % 10), digitChar (y / 10 % 10),
         digitChar (y % 10), '-', digitChar (m / 10), digitChar (m % 10), '-',
         digitChar (d / 10), digitChar (d % 10)] := by
    simp only [formatDate, str_data_append]
    rw [show (natRepr y).data = natReprList y from rfl, natReprList_four y hy1 hy2,
      jsPadStart_two_digits m (by omega), jsPadStart_two_digits d hd99]
    rfl
  have hyv : digitsToNat [digitChar (y / 1000), digitChar (y / 100 % 10),
      digitChar (y / 10 % 10), digitChar (y % 10)] = y := by
    simp only [digitsToNat, List.foldl_cons, List.foldl_nil]
    rw [digitVal_digitChar _ (by omega), digitVal_digitChar _ (by omega),
      digitVal_digitChar _ (by omega), digitVal_digitChar _ (by omega)]
    omega
  have hmv : digitsToNat [digitChar (m / 10), digitChar (m % 10)] = m := by
    simp only [digitsToNat, List.foldl_cons, List.foldl_nil]
    rw [digitVal_digitChar _ (by omega), digitVal_digitChar _ (by omega)]
    omega
  have hdv : digitsToNat [digitChar (d / 10), digitChar (d % 10)] = d := by
    simp only [digitsToNat, List.foldl_cons, List.foldl_nil]
    rw [digitVal_digitChar _ (by omega), digitVal_digitChar _ (by omega)]
    omega
  unfold parseYMD
  rw [hdata]
  dsimp only
  rw [if_pos ⟨rfl, rfl, by
    simp only [List.all_cons, List.all_nil, Bool.and_eq_true,
      isDigitChar_digitChar (y / 1000) (by omega),
      isDigitChar_digitChar (y / 100 % 10) (by omega),
      isDigitChar_digitChar (y / 10 % 10) (by omega),
      isDigitChar_digitChar (y % 10) (by omega),
      isDigitChar_digitChar (m / 10) (by omega),
      isDigitChar_digitChar (m % 10) (by omega),
      isDigitChar_digitChar (d / 10) (by omega),
      isDigitChar_digitChar (d % 10) (by omega)]
    simp⟩]
  rw [hyv, hmv, hdv]
  rw [if_pos (by
    simp only [Bool.and_eq_true, decide_eq_true_eq]
    exact ⟨⟨⟨hm1, hm2⟩, hd1⟩, hd2⟩)]

/-- **C9**: `monthName` of a well-formed `yyyy-mm-dd` date string is the
long-form English name of that date's `mm` component — in particular every
`formatDate`-rendered calendar date round-trips through the parser — and
`monthName` of every unparseable input is `""`. -/
theorem getMonthName_spec :
    (∀ s y m d, parseYMD s = some (y, m, d) → getMonthName s = monthNameEn m) ∧
    (∀ y m d, 1000 ≤ y → y ≤ 9999 → 1 ≤ m → m ≤ 12 → 1 ≤ d → d ≤ daysInMonth y m →
      parseYMD (formatDate y m d) = some (y, m, d) ∧
      getMonthName (formatDate y m d) = monthNameEn m) ∧
    (∀ s, parseYMD s = none → getMonthName s = "") := by
  refine ⟨?_, ?_, ?_⟩
  · intro s y m d h
    unfold getMonthName
    rw [h]
  · intro y m d hy1 hy2 hm1 hm2 hd1 hd2
    have hp := parseYMD_formatDate y m d hy1 hy2 hm1 hm2 hd1 hd2
    refine ⟨hp, ?_⟩
    unfold getMonthName
    rw [hp]
  · intro s h
    unfold getMonthName
    rw [h]

/-- Witness for C9: the May date `2024-05-10`, and an unparseable input. -/
theorem getMonthName_spec_witness :
    getMonthName (formatDate 2024 5 10) = "May" ∧ getMonthName ("hello") = "" := by
  constructor
  · rw [(getMonthName_spec.2.1 2024 5 10 (by omega) (by omega) (by omega) (by omega)
      (by omega) (by decide)).2]
    decide
  · exact getMonthName_spec.2.2 ("hello") (by decide)

/-! ## C8: CSV round trip -/

theorem csvScanF_nil (inQ : Bool) (field : List Char) (row : List (List Char))
    (rows : List (List (List Char))) :
    csvScanF inQ field row rows [] = rows ++ [row ++ [field]] := by
  rw [csvScanF.eq_def]

theorem csvScanF_out (field : List Char) (row : List (List Char))
    (rows : List (List (List Char))) (c : Char) (rest : List Char) :
    csvScanF false field row rows (c :: rest)
      = if c = '"' then csvScanF true field row rows rest
        else if c = ',' then csvScanF false [] (row ++ [field]) rows rest
        else if c = '\n' then csvScanF false [] [] (rows ++ [row ++ [field]]) rest
        else csvScanF false (field ++ [c]) row rows rest := by
  rw [csvScanF.eq_def]
  dsimp only
  rw [if_neg (by decide)]

theorem csvScanF_in (field : List Char) (row : List (List Char))
    (rows : List (List (List Char))) (c : Char) (rest : List Char) :
    csvScanF true field row rows (c :: rest)
      = if c = '"' then
          (match rest with
          | c2 :: rest2 =>
            if c2 = '"' then csvScanF true (field ++ ['"']) row rows rest2
            else if c2 = ',' then csvScanF false [] (row ++ [field]) rows rest2
            else if c2 = '\n' then csvScanF false [] [] (rows ++ [row ++ [field]]) rest2
            else csvScanF false (field ++ [c2]) row rows rest2
          | [] => rows ++ [row ++ [field]])
        else csvScanF true (field ++ [c]) row rows rest := by
  rw [csvScanF.eq_def]
  dsimp only
  rw [if_pos rfl]

/-- Scanning the quote-doubled rendering of `v` inside a quoted region, up to
the closing quote, accumulates exactly `v` and then behaves like the
out-of-quote scanner on what follows the closing quote (which, in well-formed
CSV, is a separator or the end of the text). -/
theorem csvScanF_quoted_content : ∀ (v field : List Char) (row : List (List Char))
    (rows : List (List (List Char))) (rest : List Char),
    (rest = [] ∨ (∃ t, rest = ',' :: t) ∨ (∃ t, rest = '\n' :: t)) →
    csvScanF true field row rows
        ((v.flatMap (fun c => if c = '"' then ['"', '"'] else [c])) ++ '"' :: rest)
      = csvScanF false (field ++ v) row rows rest := by
  intro v
  induction v with
  | nil =>
    intro field row rows rest hrest
    rcases hrest with rfl | ⟨t, rfl⟩ | ⟨t, rfl⟩ <;>
      simp [csvScanF_in, csvScanF_out, csvScanF_nil]
  | cons c v ih =>
    intro field row rows rest hrest
    by_cases hc : c = '"'
    · subst hc
      have hf : (('"' :: v).flatMap (fun c => if c = '"' then ['"', '"'] else [c]))
          = '"' :: '"' :: v.flatMap (fun c => if c = '"' then ['"', '"'] else [c]) := by
        simp
      rw [hf, List.cons_append, List.cons_append, csvScanF_in, if_pos rfl]
      dsimp only
      rw [if_pos rfl, ih (field ++ ['"']) row rows rest hrest]
      simp
    · have hf : ((c :: v).flatMap (fun c => if c = '"' then ['"', '"'] else [c]))
          = c :: v.flatMap (fun c => if c = '"' then ['"', '"'] else [c]) := by
        simp [hc]
      rw [hf, List.cons_append, csvScanF_in, if_neg hc,
        ih (field ++ [c]) row rows rest hrest]
      simp

/-- Scanning field content free of separators and quotes just accumulates
it. -/
theorem csvScanF_plain_content : ∀ (v field : List Char) (row : List (List Char))
    (rows : List (List (List Char))) (rest : List Char),
    (∀ c ∈ v, c ≠ ',' ∧ c ≠ '"' ∧ c ≠ '\n') →
    csvScanF false field row rows (v ++ rest)
      = csvScanF false (field ++ v) row rows rest := by
  intro v
  induction v with
  | nil => intro field row rows rest _; simp
  | cons c t ih =>
    intro field row rows rest h
    obtain ⟨hc1, hc2, hc3⟩ := h c (by simp)
    rw [List.cons_append, csvScanF_out, if_neg hc2, if_neg hc1, if_neg hc3,
      ih (field ++ [c]) row rows rest (fun x hx => h x (by simp [hx]))]
    simp

/-- Scanning one `escapeCSVValue`-rendered field accumulates exactly the
original value, provided it is followed by a separator or the end of the
text. -/
theorem csvScanF_escaped_field (v : String) (field : List Char)
    (row : List (List Char)) (rows : List (List (List Char))) (rest : List Char)
    (hrest : rest = [] ∨ (∃ t, rest = ',' :: t) ∨ (∃ t, rest = '\n' :: t)) :
    csvScanF false field row rows ((escapeCSVValue v).data ++ rest)
      = csvScanF false (field ++ v.data) row rows rest := by
  unfold escapeCSVValue
  by_cases hq : v.data.contains ',' || v.data.contains '"' || v.data.contains '\n'
  · rw [if_pos hq]
    have hd : (("\"" ++ String.mk (v.data.flatMap
          (fun c => if c = '"' then ['"', '"'] else [c])) ++ "\"")).data ++ rest
        = '"' :: ((v.data.flatMap (fun c => if c = '"' then ['"', '"'] else [c]))
            ++ '"' :: rest) := by
      simp [str_data_append]
    rw [hd, csvScanF_out, if_pos rfl]
    exact csvScanF_quoted_content v.data field row rows rest hrest
  · rw [if_neg hq]
    apply csvScanF_plain_content
    intro c hc
    simp only [Bool.or_eq_true, not_or] at hq
    obtain ⟨⟨h1, h2⟩, h3⟩ := hq
    refine ⟨?_, ?_, ?_⟩ <;> intro heq <;> subst heq
    · exact h1 (by simpa using hc)
    · exact h2 (by simpa using hc)
    · exact h3 (by simpa using hc)

/-- Scanning one full escaped row terminated by a newline finishes the row
with exactly the original cell values. -/
theorem csvScanF_row_nl : ∀ (vs : List String) (v : String) (field : List Char)
    (row : List (List Char)) (rows : List (List (List Char))) (t : List Char),
    csvScanF false field row rows
        ((escapeCSVValue v).data
          ++ (vs.flatMap (fun u => ',' :: (escapeCSVValue u).data) ++ '\n' :: t))
      = csvScanF false [] []
          (rows ++ [row ++ [field ++ v.data] ++ vs.map (fun u => u.data)]) t := by
  intro vs
  induction vs with
  | nil =>
    intro v field row rows t
    rw [List.flatMap_nil, List.nil_append,
      csvScanF_escaped_field v field row rows ('\n' :: t) (Or.inr (Or.inr ⟨t, rfl⟩)),
      csvScanF_out, if_neg (by decide), if_neg (by decide), if_pos rfl]
    simp
  | cons u us ih =>
    intro v field row rows t
    rw [List.flatMap_cons]
    have hshape : ((',' :: (escapeCSVValue u).data)
          ++ us.flatMap (fun u => ',' :: (escapeCSVValue u).data)) ++ '\n' :: t
        = ',' :: ((escapeCSVValue u).data
          ++ (us.flatMap (fun u => ',' :: (escapeCSVValue u).data) ++ '\n' :: t)) := by
      simp
    rw [hshape,
      csvScanF_escaped_field v field row rows _ (Or.inr (Or.inl ⟨_, rfl⟩)),
      csvScanF_out, if_neg (by decide), if_pos rfl,
      ih u [] (row ++ [field ++ v.data]) rows t]
    simp

/-- Scanning one full escaped row at the end of the text finishes the scan
with exactly the original cell values as the last row. -/
theorem csvScanF_row_end : ∀ (vs : List String) (v : String) (field : List Char)
    (row : List (List Char)) (rows : List (List (List Char))),
    csvScanF false field row rows
        ((escapeCSVValue v).data ++ vs.flatMap (fun u => ',' :: (escapeCSVValue u).data))
      = rows ++ [row ++ [field ++ v.data] ++ vs.map (fun u => u.data)] := by
  intro vs
  induction vs with
  | nil =>
    intro v field row rows
    rw [List.flatMap_nil, List.append_nil,
      show (escapeCSVValue v).data = (escapeCSVValue v).data ++ [] by simp,
      csvScanF_escaped_field v field row rows [] (Or.inl rfl), csvScanF_nil]
    simp
  | cons u us ih =>
    intro v field row rows
    rw [List.flatMap_cons]
    have hshape : (escapeCSVValue v).data ++ ((',' :: (escapeCSVValue u).data)
          ++ us.flatMap (fun u => ',' :: (escapeCSVValue u).data))
        = (escapeCSVValue v).data ++ (',' :: ((escapeCSVValue u).data
          ++ us.flatMap (fun u => ',' :: (escapeCSVValue u).data))) := by
      simp
    rw [hshape,
      csvScanF_escaped_field v field row rows _ (Or.inr (Or.inl ⟨_, rfl⟩)),
      csvScanF_out, if_neg (by decide), if_pos rfl,
      ih u [] (row ++ [field ++ v.data]) rows]
    simp

theorem intercalate_eq_flatMap {α β : Type} (sep : List α) (f : β → List α) :
    ∀ (xs : List β) (x : β),
    List.intercalate sep ((x :: xs).map f) = f x ++ xs.flatMap (fun y => sep ++ f y) := by
  intro xs
  induction xs with
  | nil => intro x; simp [List.intercalate, List.intersperse]
  | cons y ys ih =>
    intro x
    have hstep : List.intercalate sep (f x :: f y :: ys.map f)
        = f x ++ sep ++ List.intercalate sep (f y :: ys.map f) := by
      simp [List.intercalate, List.intersperse]
    simp only [List.map_cons] at ih ⊢
    rw [hstep, ih y, List.flatMap_cons]
    simp [List.append_assoc]

theorem strIntercalate_go_data (sep : String) :
    ∀ (vs : List String) (acc : String),
    (String.intercalate.go acc sep vs).data
      = acc.data ++ vs.flatMap (fun u => sep.data ++ u.data) := by
  intro vs
  induction vs with
  | nil => intro acc; simp [String.intercalate.go]
  | cons u us ih =>
    intro u0
    rw [String.intercalate.go, ih (u0 ++ sep ++ u), List.flatMap_cons]
    simp [str_data_append, List.append_assoc]

theorem strIntercalate_data_eq (sep : String) :
    ∀ (xs : List String), xs ≠ [] →
    (String.intercalate sep xs).data
      = List.intercalate sep.data (xs.map (fun u => u.data)) := by
  intro xs hne
  cases xs with
  | nil => exact absurd rfl hne
  | cons v vs =>
    show (String.intercalate.go v sep vs).data = _
    rw [strIntercalate_go_data sep vs v, intercalate_eq_flatMap sep.data _ vs v]

theorem intercalate_eq_flatMap2 {α β : Type} (sep : List α) (f : β → List α)
    (xs : List β) (x : β) :
    List.intercalate sep (f x :: xs.map f) = f x ++ xs.flatMap (fun y => sep ++ f y) := by
  rw [← List.map_cons]
  exact intercalate_eq_flatMap sep f xs x

/-- Scanning the newline-joined, comma-joined, escaped rendering of a list of
non-empty rows recovers exactly the rows. -/
theorem csvScanF_text : ∀ (rows0 : List (List String)) (v : String) (vs : List String)
    (acc : List (List (List Char))),
    (∀ row ∈ rows0, row ≠ []) →
    csvScanF false [] [] acc
        (List.intercalate ['\n'] (((v :: vs) :: rows0).map
          (fun row => List.intercalate [','] (row.map (fun u => (escapeCSVValue u).data)))))
      = acc ++ ((v :: vs) :: rows0).map (fun row => row.map (fun u => u.data)) := by
  intro rows0
  induction rows0 with
  | nil =>
    intro v vs acc _
    simp only [List.map_cons, List.map_nil]
    rw [show ∀ x : List Char, List.intercalate ['\n'] [x] = x from fun x => by
        simp [List.intercalate, List.intersperse]]
    rw [intercalate_eq_flatMap2 [','] (fun u => (escapeCSVValue u).data) vs v]
    have hflat : vs.flatMap (fun y => [','] ++ (escapeCSVValue y).data)
        = vs.flatMap (fun y => ',' :: (escapeCSVValue y).data) := by simp
    rw [hflat, csvScanF_row_end vs v [] [] acc]
    simp
  | cons r rs ih =>
    intro v vs acc hne
    obtain ⟨u, us, rfl⟩ : ∃ u us, r = u :: us := by
      cases r with
      | nil => exact absurd rfl (hne [] (by simp))
      | cons u us => exact ⟨u, us, rfl⟩
    simp only [List.map_cons]
    have hstep : ∀ (x y : List Char) (zs : List (List Char)),
        List.intercalate ['\n'] (x :: y :: zs) = x ++ '\n' :: List.intercalate ['\n'] (y :: zs) := by
      intro x y zs
      simp [List.intercalate, List.intersperse]
    rw [hstep, intercalate_eq_flatMap2 [','] (fun u => (escapeCSVValue u).data) vs v]
    have hflat : vs.flatMap (fun y => [','] ++ (escapeCSVValue y).data)
        = vs.flatMap (fun y => ',' :: (escapeCSVValue y).data) := by simp
    rw [hflat, List.append_assoc, csvScanF_row_nl vs v [] [] acc _]
    have hih := ih u us (acc ++ [[] ++ [[] ++ v.data] ++ vs.map (fun u => u.data)])
      (fun row hrow => hne row (by simp [hrow]))
    simp only [List.map_cons] at hih
    rw [hih]
    simp

theorem digit_not_special (c : Char) (h : isDigitChar c = true) :
    c ≠ ',' ∧ c ≠ '"' ∧ c ≠ '\n' := by
  refine ⟨?_, ?_, ?_⟩ <;> intro heq <;> subst heq <;> exact absurd h (by decide)

theorem intRepr_no_specials (i : Int) :
    ∀ c ∈ (intRepr i).data, c ≠ ',' ∧ c ≠ '"' ∧ c ≠ '\n' := by
  intro c hc
  unfold intRepr at hc
  by_cases hi : i < 0
  · rw [if_pos hi, str_data_append] at hc
    rcases List.mem_append.mp hc with hc | hc
    · have : c = '-' := by simpa using hc
      subst this
      exact ⟨by decide, by decide, by decide⟩
    · exact digit_not_special c (natReprList_all_digits i.natAbs c hc)
  · rw [if_neg hi] at hc
    exact digit_not_special c (natReprList_all_digits i.toNat c hc)

theorem escapeCSVValue_intRepr (i : Int) : escapeCSVValue (intRepr i) = intRepr i := by
  unfold escapeCSVValue
  rw [if_neg ?hc]
  case hc =>
    simp only [Bool.or_eq_true, not_or]
    refine ⟨⟨?_, ?_⟩, ?_⟩ <;> intro hcont
    · exact (intRepr_no_specials i ',' (by simpa using hcont)).1 rfl
    · exact (intRepr_no_specials i '"' (by simpa using hcont)).2.1 rfl
    · exact (intRepr_no_specials i '\n' (by simpa using hcont)).2.2 rfl

theorem recordCSVFields_eq (r : DiscountRecord) :
    recordCSVFields r = (recordCellValues r).map escapeCSVValue := by
  unfold recordCSVFields recordCellValues
  simp only [List.map_cons, List.map_nil, escapeCSVValue_intRepr]

theorem csvHeaders_escape_id : csvHeaders.map escapeCSVValue = csvHeaders := by decide

/-- **C8**: parsing the CSV text produced by `convertToCSV` — RFC-4180-style
escaping, 16-column header, rows joined by `\n` — recovers, for every
non-empty record list, the header row and every serialized cell value of every
record verbatim, including free-text fields with embedded commas, quotes and
newlines. -/
theorem convertToCSV_roundTrip (records : List DiscountRecord) (h : records ≠ []) :
    parseCSV (convertToCSV records) = csvHeaders :: records.map recordCellValues := by
  obtain ⟨r0, rs, rfl⟩ : ∃ r0 rs, records = r0 :: rs := by
    cases records with
    | nil => exact absurd rfl h
    | cons r0 rs => exact ⟨r0, rs, rfl⟩
  unfold parseCSV convertToCSV
  rw [if_neg (by simp)]
  rw [strIntercalate_data_eq ("\n") _ (by simp)]
  have hline : ∀ r : DiscountRecord, (String.intercalate (",") (recordCSVFields r)).data
      = List.intercalate [','] ((recordCellValues r).map (fun u => (escapeCSVValue u).data)) := by
    intro r
    rw [recordCSVFields_eq r,
      strIntercalate_data_eq (",") _ (by unfold recordCellValues; simp),
      List.map_map]
    rfl
  have hlines : ((String.intercalate (",") csvHeaders
        :: (r0 :: rs).map (fun record => String.intercalate (",") (recordCSVFields record))).map
        (fun u => u.data))
      = (csvHeaders :: (r0 :: rs).map recordCellValues).map
          (fun row => List.intercalate [','] (row.map (fun u => (escapeCSVValue u).data))) := by
    simp only [List.map_cons, List.map_map]
    refine congrArg₂ List.cons ?_ (congrArg₂ List.cons ?_ ?_)
    · rw [show String.intercalate (",") csvHeaders
          = String.intercalate (",") (csvHeaders.map escapeCSVValue) from by
        rw [csvHeaders_escape_id]]
      rw [strIntercalate_data_eq (",") _ (by decide), List.map_map]
      rfl
    · exact hline r0
    · apply List.map_congr_left
      intro r _
      exact hline r
  rw [hlines]
  rw [show csvHeaders = ("Client Id") :: ["Client", "Platform", "Region", "Discount",
      "Start Date", "Start Time", "End Date", "End Time", "Percent", "Deadline",
      "Implementation Status", "Sales Event Status", "Comments", "Month",
      "Length (Days)"] from rfl]
  rw [show (("\n" : String)).data = ['\n'] from rfl]
  rw [csvScanF_text ((r0 :: rs).map recordCellValues) ("Client Id") _ []
    (by
      intro row hrow
      obtain ⟨r, _, rfl⟩ := List.mem_map.mp hrow
      unfold recordCellValues
      simp)]
  have hrowmap : ∀ (l : List String), List.map (String.mk ∘ fun u => u.data) l = l := by
    intro l
    induction l with
    | nil => rfl
    | cons x t iht => exact congrArg₂ List.cons rfl iht
  have hfix : ∀ (row : List String),
      ((fun row => List.map String.mk row) ∘ fun row => List.map (fun u => u.data) row) row
        = row := by
    intro row
    show (row.map (fun u => u.data)).map String.mk = row
    rw [List.map_map]
    exact hrowmap row
  rw [List.nil_append, List.map_map,
    List.map_congr_left (fun a _ => hfix a), List.map_id']

/-- Witness for C8: one concrete record whose free-text fields carry an
embedded comma, a double quote and a newline round-trips. -/
theorem convertToCSV_roundTrip_witness :
    parseCSV (convertToCSV [{ sampleRecord with
        discount := "Summer, \"Mega\" Sale", comments := "line1\nline2" }])
      = csvHeaders :: [{ sampleRecord with
          discount := "Summer, \"Mega\" Sale", comments := "line1\nline2" }].map
            recordCellValues :=
  convertToCSV_roundTrip _ (by decide)
